import Mathlib

/-
Verification of the request-classification and concurrent-dispatch layer of
the Y2BeLike downloader (src/download.py) against its design specification.
Python strings are embedded as lists of characters; the external extraction
engine (yt-dlp) is embedded as an explicit response value so that every code
path of the classifier and of the fetch worker is a total Lean function.
-/

namespace Y2BeLike

/-- Character lists stand in for Python strings. -/
abbrev Str := List Char

/-- View a Lean string literal as a character list. -/
def str (s : String) : Str := s.data

/-- The apostrophe character, used by the playlist completion message. -/
def apos : Str := [Char.ofNat 39]

/-- Boolean test that the first list is an initial segment of the second. -/
def leadsWith : Str → Str → Bool
  | [], _ => true
  | _ :: _, [] => false
  | a :: as, b :: bs => if a = b then leadsWith as bs else false

/-- Embedding of the Python membership test needle in hay on strings:
the needle occurs contiguously somewhere in the hay. -/
def containsSub (n : Str) : Str → Bool
  | [] => leadsWith n []
  | c :: t => leadsWith n (c :: t) || containsSub n t

/-- ASCII whitespace, the characters stripped by str.strip and matched by
the regex class backslash-s in parse_multiple_urls. -/
def isSpace (c : Char) : Bool :=
  c == ' ' || c == '\t' || c == '\n' || c == '\r' ||
    c == Char.ofNat 11 || c == Char.ofNat 12

/-- Characters matched by the separator class of parse_multiple_urls:
comma, whitespace, newline or tab (the latter two are already whitespace). -/
def isSep (c : Char) : Bool := c == ',' || isSpace c

/-- Embedding of Python str.strip: drop leading and trailing whitespace. -/
def pyStrip (s : Str) : Str :=
  ((s.dropWhile (fun c => isSpace c)).reverse.dropWhile (fun c => isSpace c)).reverse

/-- The token list of parse_multiple_urls before validation: strip the input,
split on every separator character (a run of separators yields empty chunks),
strip each chunk and keep the non-empty ones. -/
def pyTokens (s : Str) : List Str :=
  (((pyStrip s).splitOnP isSep).map pyStrip).filter (fun t => !t.isEmpty)

/-- The validation predicate of parse_multiple_urls: a recognized host
substring together with at least one recognized path or query marker. -/
def validUrl (u : Str) : Bool :=
  (containsSub (str "youtube.com") u || containsSub (str "youtu.be") u) &&
    (containsSub (str "/watch?") u ||
     containsSub (str "/playlist?") u ||
     containsSub (str "/@") u ||
     containsSub (str "/channel/") u ||
     containsSub (str "/c/") u ||
     containsSub (str "/user/") u ||
     containsSub (str "youtu.be/") u)

/-- The validation loop of parse_multiple_urls: keep valid tokens in order,
count every rejected token. -/
def validateUrls : List Str → List Str × Nat
  | [] => ([], 0)
  | u :: rest =>
    let r := validateUrls rest
    if validUrl u then (u :: r.1, r.2) else (r.1, r.2 + 1)

/-- Embedding of parse_multiple_urls: the validated URL list. -/
def parse_multiple_urls (s : Str) : List Str :=
  (validateUrls (pyTokens s)).1

/-- The invalid-entry counter accumulated by parse_multiple_urls. -/
def parse_invalid_count (s : Str) : Nat :=
  (validateUrls (pyTokens s)).2

/-- The fields of the engine metadata dictionary that get_url_info and
download_single_video read: the type tag, the uploader identifier, the
title, and the number of resolvable entries of a collection. An absent
key is none; entries stands for the length of the entries list. -/
structure Info where
  ty : Option Str
  uploader_id : Option Str
  title : Option Str
  entries : Nat
deriving DecidableEq

/-- Behaviour of one shallow metadata query against the external engine:
the call raised an exception, or returned nothing, or returned a
metadata dictionary. -/
inductive EngineResp where
  | raised
  | ok (info : Option Info)
deriving DecidableEq

/-- Characters of s strictly before the first occurrence of c. -/
def beforeChar (c : Char) (s : Str) : Str :=
  s.takeWhile (fun a => !(a == c))

/-- Characters of s strictly after the first occurrence of c; empty when
c does not occur. -/
def afterChar (c : Char) (s : Str) : Str :=
  (s.dropWhile (fun a => !(a == c))).drop 1

/-- The query component of a URL as urlparse extracts it: everything after
the first question mark, with the fragment (after the first hash) removed
first. -/
def urlQuery (u : Str) : Str :=
  afterChar '?' (beforeChar '#' u)

/-- Embedding of the parse_qs key test: the query string, split on
ampersands, holds a pair whose key is the given one and whose value is
non-empty (parse_qs drops blank values). -/
def hasQueryKey (key : Str) (u : Str) : Bool :=
  ((urlQuery u).splitOnP (fun c => c == '&')).any
    (fun p => beforeChar '=' p == key && !(afterChar '=' p).isEmpty)

/-- The profile-style path markers that get_url_info checks for channels. -/
def profileMark (u : Str) : Bool :=
  containsSub (str "/@") u || containsSub (str "/channel/") u ||
    containsSub (str "/c/") u || containsSub (str "/user/") u

/-- The pure pattern-matching fallback of get_url_info, used both when the
engine raises and when it returns None: channel markers first, then the
list query parameter, else video. -/
def urlFallbackType (u : Str) : Str :=
  if profileMark u then str "channel"
  else if hasQueryKey (str "list") u then str "playlist"
  else str "video"

/-- Truthiness of the uploader_id entry as Python evaluates it: present
and non-empty. -/
def uploaderTruthy (i : Info) : Bool :=
  match i.uploader_id with
  | some s => !s.isEmpty
  | none => false

/-- Embedding of the content-type component of get_url_info: on an engine
exception or a None result, fall back to URL patterns; otherwise read the
type tag (defaulting to video), and reclassify a playlist as a channel
when an uploader id and a profile marker are both present. -/
def get_url_info (e : EngineResp) (u : Str) : Str :=
  match e with
  | EngineResp.raised => urlFallbackType u
  | EngineResp.ok none => urlFallbackType u
  | EngineResp.ok (some i) =>
    let content_type := i.ty.getD (str "video")
    if content_type = str "playlist" then
      if uploaderTruthy i && profileMark u then str "channel" else str "playlist"
    else content_type

/-- The audio quality map of download_single_video with its default:
quality_map.get of the quality string, defaulting to 192. -/
def audioQualityMap (q : Str) : Str :=
  if q = str "320kbps" then str "320"
  else if q = str "256kbps" then str "256"
  else if q = str "192kbps" then str "192"
  else if q = str "128kbps" then str "128"
  else if q = str "64kbps" then str "64"
  else str "192"

/-- The video quality map of download_single_video with its default:
quality_map.get of the quality string, defaulting to 1080. -/
def videoQualityMap (q : Str) : Str :=
  if q = str "1080p" then str "1080"
  else if q = str "720p" then str "720"
  else if q = str "480p" then str "480"
  else if q = str "360p" then str "360"
  else if q = str "240p" then str "240"
  else str "1080"

/-- Helper of pyTitle: the flag records whether the previous character was
alphabetic; the first character of each alphabetic run is upper-cased and
the rest lower-cased. -/
def titleCase : Bool → Str → Str
  | _, [] => []
  | prev, c :: rest =>
    (if c.isAlpha then (if prev then c.toLower else c.toUpper) else c) ::
      titleCase c.isAlpha rest

/-- Embedding of Python str.title for ASCII strings. -/
def pyTitle (s : Str) : Str := titleCase false s

/-- Decimal representation of a natural number as a character list. -/
def natStr (n : Nat) : Str := (Nat.repr n).data

/-- The thread tag that opens every worker message. -/
def threadTag (tid : Nat) : Str :=
  str "[Thread " ++ natStr tid ++ str "] "

/-- Embedding of os.path.join on two components under POSIX rules: an
absolute second component wins, an empty or slash-terminated first
component is used as is, else a slash is inserted. -/
def pathJoin (a b : Str) : Str :=
  if leadsWith (str "/") b then b
  else if a = [] then b
  else if a.getLast? = some ('/') then a ++ b
  else a ++ str "/" ++ b

/-- os.path.join on three components, left associated. -/
def pathJoin3 (a b c : Str) : Str := pathJoin (pathJoin a b) c

/-- Behaviour of the fresh engine session opened by download_single_video:
extract_info raised with a message, or returned None, or returned a
metadata dictionary, in which case the subsequent download call either
raised with a message (some) or succeeded (none). -/
inductive Session where
  | extractRaise (e : Str)
  | extractNone
  | extractInfo (i : Info) (dl : Option Str)
deriving DecidableEq

/-- The result dictionary every worker returns: the link, a success flag,
and a human-readable message. -/
structure FetchOutcome where
  url : Str
  success : Bool
  message : Str
deriving DecidableEq

/-- What download_single_video produces, together with the configuration it
hands the engine: the outcome dictionary, whether the download call was
reached, the output template, the format selector, and the resolved
quality value. -/
structure FetchResult where
  outcome : FetchOutcome
  downloaded : Bool
  outtmpl : Str
  format_selector : Str
  resolvedQuality : Str
deriving DecidableEq

/-- Embedding of download_single_video: resolve quality and format for the
mode, pick the output template from the cached classification, then run
the session: an extraction exception or a None result or an empty playlist
yields a failed outcome, otherwise the download is performed and its
exception, if any, is converted to a failed outcome. -/
def download_single_video (url output_path : Str) (thread_id : Nat)
    (audio_only : Bool) (quality : Str) (classE : EngineResp)
    (sess : Session) : FetchResult :=
  let resolvedQ := if audio_only then audioQualityMap quality
    else videoQualityMap quality
  let format_selector := if audio_only then str "bestaudio/best"
    else str "best[height<=" ++ resolvedQ ++ str "]/bestvideo[height<=" ++
      resolvedQ ++ str "]+bestaudio/best"
  let file_extension := if audio_only then str "mp3" else str "mp4"
  let content_type := get_url_info classE url
  let outtmpl :=
    if content_type = str "playlist" then
      pathJoin3 output_path (str "%(playlist_title)s")
        (str "%(playlist_index)s-%(title)s." ++ file_extension)
    else if content_type = str "channel" then
      pathJoin3 output_path (str "%(uploader)s")
        (str "%(upload_date)s-%(title)s." ++ file_extension)
    else
      pathJoin output_path (str "%(title)s." ++ file_extension)
  let runSession : FetchOutcome × Bool :=
    match sess with
    | Session.extractRaise e =>
      (⟨url, false, threadTag thread_id ++ str "Error: " ++ e⟩, false)
    | Session.extractNone =>
      (⟨url, false, threadTag thread_id ++
          str "Failed to extract video information. Video may be private or unavailable."⟩,
        false)
    | Session.extractInfo i dl =>
      if i.ty = some (str "playlist") ∧ i.entries = 0 then
        (⟨url, false, threadTag thread_id ++ pyTitle content_type ++
            str " appears to be empty or private"⟩, false)
      else
        match dl with
        | some e =>
          (⟨url, false, threadTag thread_id ++ str "Error: " ++ e⟩, true)
        | none =>
          if i.ty = some (str "playlist") then
            (⟨url, true, threadTag thread_id ++ pyTitle content_type ++
                str " " ++ apos ++
                i.title.getD (str "Unknown " ++ pyTitle content_type) ++ apos ++
                str " download completed! (" ++ natStr i.entries ++ str " " ++
                (if audio_only then str "MP3s" else str "videos") ++ str ")"⟩,
              true)
          else
            (⟨url, true, threadTag thread_id ++
                (if audio_only then str "Audio" else str "Video") ++
                str " download completed successfully!"⟩, true)
  ⟨runSession.1, runSession.2, outtmpl, format_selector, resolvedQ⟩

/-- The engine exception a session raises on the path the worker actually
takes: the extraction exception, or the download exception when the
download is reached (an empty playlist returns before downloading). -/
def sessionRaisedMsg : Session → Option Str
  | Session.extractRaise e => some e
  | Session.extractNone => none
  | Session.extractInfo i dl =>
    if i.ty = some (str "playlist") ∧ i.entries = 0 then none else dl

/-- One dispatched link of a batch: the link together with the engine
behaviour its classification query and its fetch session will see. -/
structure Job where
  url : Str
  classE : EngineResp
  sess : Session
deriving DecidableEq

/-- The dispatch loop of download_youtube_content: worker i (counted from
the given base) receives thread id i plus one, and each job's outcome is
computed from that job alone. -/
def run_batch_from (op : Str) (ao : Bool) (q : Str) :
    Nat → List Job → List FetchOutcome
  | _, [] => []
  | i, jb :: rest =>
    (download_single_video jb.url op (i + 1) ao q jb.classE jb.sess).outcome ::
      run_batch_from op ao q (i + 1) rest

/-- All worker outcomes of one batch, in submission order. -/
def run_batch (op : Str) (ao : Bool) (q : Str) (jobs : List Job) :
    List FetchOutcome :=
  run_batch_from op ao q 0 jobs

/-- The aggregate summary printed after the barrier: success and failure
counts and the failure detail list. -/
structure BatchReport where
  successful : Nat
  failed : Nat
  failures : List FetchOutcome
deriving DecidableEq

/-- The summary construction of download_youtube_content: partition the
collected results on the success flag. -/
def buildReport (results : List FetchOutcome) : BatchReport :=
  { successful := (results.filter (fun r => r.success)).length
    failed := (results.filter (fun r => !r.success)).length
    failures := results.filter (fun r => !r.success) }

/-- The capacity of the lru_cache decorating get_url_info. -/
def maxsize : Nat := 128

/-- Lookup of a key in the cache list, most recent entry first. -/
def lruLookup : List (Str × Str) → Str → Option Str
  | [], _ => none
  | (k, v) :: rest, key => if k = key then some v else lruLookup rest key

/-- Removal of the entry of a key from the cache list. -/
def lruErase : List (Str × Str) → Str → List (Str × Str)
  | [], _ => []
  | (k, v) :: rest, key =>
    if k = key then rest else (k, v) :: lruErase rest key

/-- One call of the cached classifier: on a hit the entry moves to the
most-recent position and the engine is untouched; on a miss the engine is
consulted once, the entry is inserted, and the least recent entry is
evicted when the capacity is exceeded. The third component records
whether the engine was called. -/
def lruStep (engine : Str → EngineResp) (c : List (Str × Str)) (key : Str) :
    Str × List (Str × Str) × Bool :=
  match lruLookup c key with
  | some v => (v, (key, v) :: lruErase c key, false)
  | none =>
    (get_url_info (engine key) key,
      ((key, get_url_info (engine key) key) :: c).take maxsize, true)

/-- A whole sequence of cached classifier calls within one process
lifetime, logging for each call its key and whether the engine was hit. -/
def lruRun (engine : Str → EngineResp) :
    List (Str × Str) → List Str → List (Str × Bool)
  | _, [] => []
  | c, k :: ks =>
    let s := lruStep engine c k
    (k, s.2.2) :: lruRun engine s.2.1 ks

/-- How many times a sequence of calls consulted the engine for one key. -/
def engineCallCount (log : List (Str × Bool)) (k : Str) : Nat :=
  log.countP (fun p => decide (p.1 = k) && p.2)

/-- The keys held by a cache, most recent first. -/
def lruKeys (c : List (Str × Str)) : List Str := c.map Prod.fst

/-- A compact one-character key, used to build concrete call sequences. -/
def ckey (n : Nat) : Str := [Char.ofNat (64 + n)]

/-- A call sequence that visits one link, then maxsize distinct other
links, then the first link again. -/
def evictTrace : List Str :=
  ckey 0 :: (List.range maxsize).map (fun n => ckey (n + 1)) ++ [ckey 0]

/-- A list is an initial segment of itself. -/
lemma leadsWith_refl (s : Str) : leadsWith s s = true := by
  induction s with
  | nil => rfl
  | cons c t ih => simp [leadsWith, ih]

/-- Every string occurs in itself. -/
lemma containsSub_self (s : Str) : containsSub s s = true := by
  cases s with
  | nil => rfl
  | cons c t => simp [containsSub, leadsWith_refl]

/-- Occurrence in the right part of a concatenation is occurrence in the
whole. -/
lemma containsSub_append_right (a b n : Str)
    (h : containsSub n b = true) : containsSub n (a ++ b) = true := by
  induction a with
  | nil => simpa using h
  | cons c t ih => simp [containsSub, ih]

/-- An initial segment of a longer needle is an initial segment of any
list the longer needle leads. -/
lemma leadsWith_append_mono (a b h : Str)
    (hw : leadsWith (a ++ b) h = true) : leadsWith a h = true := by
  induction a generalizing h with
  | nil => rfl
  | cons c t ih =>
    cases h with
    | nil => simp [leadsWith] at hw
    | cons d hs =>
      simp only [List.cons_append, leadsWith] at hw ⊢
      by_cases hcd : c = d
      · simp only [hcd, if_pos rfl] at hw ⊢
        exact ih hs hw
      · simp [hcd] at hw

/-- A needle extended on the right occurs only where the original needle
occurs. -/
lemma containsSub_append_mono (a b h : Str)
    (hw : containsSub (a ++ b) h = true) : containsSub a h = true := by
  induction h with
  | nil =>
    simp only [containsSub] at hw ⊢
    cases a with
    | nil => rfl
    | cons c t => simp [leadsWith] at hw
  | cons c t ih =>
    simp only [containsSub, Bool.or_eq_true] at hw ⊢
    rcases hw with hw | hw
    · exact Or.inl (leadsWith_append_mono a b _ hw)
    · exact Or.inr (ih hw)

/-- The validation loop keeps exactly the valid tokens and counts exactly
the invalid ones. -/
lemma validateUrls_eq (us : List Str) :
    validateUrls us =
      (us.filter validUrl, us.countP (fun u => !validUrl u)) := by
  induction us with
  | nil => rfl
  | cons u rest ih =>
    by_cases h : validUrl u = true
    · simp [validateUrls, ih, h, List.countP_cons]
    · simp only [Bool.not_eq_true] at h
      simp [validateUrls, ih, h, List.countP_cons]

/-- C2: parse_multiple_urls never fails and returns exactly the separator-
split tokens that pass the host-plus-marker predicate, in input order with
duplicates preserved; it returns the empty list when no token validates,
and every rejected token is counted. -/
theorem parse_exact_filter (s : Str) :
    parse_multiple_urls s = (pyTokens s).filter validUrl ∧
    (parse_multiple_urls s).Sublist (pyTokens s) ∧
    parse_invalid_count s = (pyTokens s).countP (fun u => !validUrl u) ∧
    ((∀ t ∈ pyTokens s, validUrl t = false) → parse_multiple_urls s = []) := by
  refine ⟨?_, ?_, ?_, ?_⟩
  · simp [parse_multiple_urls, validateUrls_eq]
  · simp only [parse_multiple_urls, validateUrls_eq]
    exact List.filter_sublist _
  · simp [parse_invalid_count, validateUrls_eq]
  · intro h
    simp only [parse_multiple_urls, validateUrls_eq]
    exact List.filter_eq_nil_iff.mpr (fun t ht => by simp [h t ht])

/-- Witness for C2 at a concrete input with no valid token. -/
theorem parse_exact_filter_witness :
    parse_multiple_urls (str "nope also-not-a-link") = [] :=
  (parse_exact_filter (str "nope also-not-a-link")).2.2.2 (by decide)

/-- C9: quality resolution is total with deterministic defaults, both for
the standalone maps and for the value download_single_video resolves. -/
theorem quality_resolution_total (q : Str) :
    (q ∉ [str "320kbps", str "256kbps", str "192kbps", str "128kbps",
        str "64kbps"] → audioQualityMap q = str "192") ∧
    (q ∉ [str "1080p", str "720p", str "480p", str "360p", str "240p"] →
      videoQualityMap q = str "1080") ∧
    audioQualityMap (str "320kbps") = str "320" ∧
    audioQualityMap (str "256kbps") = str "256" ∧
    audioQualityMap (str "192kbps") = str "192" ∧
    audioQualityMap (str "128kbps") = str "128" ∧
    audioQualityMap (str "64kbps") = str "64" ∧
    videoQualityMap (str "1080p") = str "1080" ∧
    videoQualityMap (str "720p") = str "720" ∧
    videoQualityMap (str "480p") = str "480" ∧
    videoQualityMap (str "360p") = str "360" ∧
    videoQualityMap (str "240p") = str "240" ∧
    (∀ (op : Str) (tid : Nat) (cE : EngineResp) (sess : Session),
      (download_single_video (str "u") op tid true q cE sess).resolvedQuality =
        audioQualityMap q ∧
      (download_single_video (str "u") op tid false q cE sess).resolvedQuality =
        videoQualityMap q) := by
  refine ⟨?_, ?_, by decide, by decide, by decide, by decide, by decide,
    by decide, by decide, by decide, by decide, by decide, ?_⟩
  · intro h
    simp only [List.mem_cons, List.mem_singleton, not_or] at h
    obtain ⟨h1, h2, h3, h4, h5, -⟩ := h
    simp [audioQualityMap, h1, h2, h3, h4, h5]
  · intro h
    simp only [List.mem_cons, List.mem_singleton, not_or] at h
    obtain ⟨h1, h2, h3, h4, h5, -⟩ := h
    simp [videoQualityMap, h1, h2, h3, h4, h5]
  · intro op tid cE sess
    exact ⟨rfl, rfl⟩

/-- Witness for C9 at an unrecognized quality string. -/
theorem quality_resolution_total_witness :
    audioQualityMap (str "best") = str "192" ∧
    videoQualityMap (str "best") = str "1080" :=
  ⟨(quality_resolution_total (str "best")).1 (by decide),
    (quality_resolution_total (str "best")).2.1 (by decide)⟩

/-- C10: any token containing the youtu.be slash substring passes the
validation predicate outright, because that substring satisfies both the
host check and the marker check. -/
theorem youtu_be_substring_accepted (u : Str)
    (h : containsSub (str "youtu.be/") u = true) : validUrl u = true := by
  have hhost : containsSub (str "youtu.be") u = true := by
    apply containsSub_append_mono (str "youtu.be") (str "/")
    simpa using h
  simp [validUrl, hhost, h]

/-- Witness for C10: a token whose host is not YouTube but which contains
youtu.be slash as a substring is accepted. -/
theorem youtu_be_substring_accepted_witness :
    validUrl (str "https://notyoutu.be/xyz") = true :=
  youtu_be_substring_accepted (str "https://notyoutu.be/xyz") (by decide)

/-- The pattern-matching fallback always lands in the three-variant
enumeration. -/
lemma urlFallbackType_mem (u : Str) :
    urlFallbackType u = str "channel" ∨ urlFallbackType u = str "playlist" ∨
      urlFallbackType u = str "video" := by
  unfold urlFallbackType
  split
  · exact Or.inl rfl
  · split
    · exact Or.inr (Or.inl rfl)
    · exact Or.inr (Or.inr rfl)

/-- Counterexample to C3: an engine response whose type tag is the string
url is passed through verbatim by the classifier, which therefore does not
return one of the three enumerated shapes. -/
theorem classify_leaks_engine_tag :
    get_url_info (EngineResp.ok (some ⟨some (str "url"), none, none, 0⟩))
        (str "https://www.youtube.com/watch?v=abc") = str "url" ∧
    str "url" ≠ str "video" ∧ str "url" ≠ str "playlist" ∧
    str "url" ≠ str "channel" := by
  refine ⟨rfl, by decide, by decide, by decide⟩

/-- Recognized engine responses: a failure, an empty result, or a metadata
dictionary whose type tag is absent, video or playlist. -/
def tagRecognized : EngineResp → Bool
  | EngineResp.raised => true
  | EngineResp.ok none => true
  | EngineResp.ok (some i) =>
    decide (i.ty = none) || decide (i.ty = some (str "video")) ||
      decide (i.ty = some (str "playlist"))

/-- C3 as amended: the classifier returns one of the three enumerated
shapes whenever the engine fails, returns nothing, or reports an absent,
video or playlist type tag; any other type tag is returned verbatim. -/
theorem classify_shape_enum_amended (e : EngineResp) (u : Str) :
    (tagRecognized e = true →
      (get_url_info e u = str "video" ∨ get_url_info e u = str "playlist" ∨
        get_url_info e u = str "channel")) ∧
    (∀ i t, e = EngineResp.ok (some i) → i.ty = some t →
      t ≠ str "playlist" → get_url_info e u = t) := by
  constructor
  · intro htag
    match e with
    | EngineResp.raised =>
      rcases urlFallbackType_mem u with h | h | h <;>
        simp [get_url_info, h]
    | EngineResp.ok none =>
      rcases urlFallbackType_mem u with h | h | h <;>
        simp [get_url_info, h]
    | EngineResp.ok (some i) =>
      have hvp : ¬(str "video" = str "playlist") := by decide
      simp only [tagRecognized, Bool.or_eq_true, decide_eq_true_eq] at htag
      rcases htag with (hty | hty) | hty
      · simp [get_url_info, hty, hvp]
      · simp [get_url_info, hty, hvp]
      · simp only [get_url_info, hty, Option.getD_some, if_pos rfl]
        by_cases hb : (uploaderTruthy i && profileMark u) = true
        · rw [if_pos hb]
          exact Or.inr (Or.inr rfl)
        · rw [if_neg hb]
          exact Or.inr (Or.inl rfl)
  · intro i t he hty htne
    subst he
    simp [get_url_info, hty, htne]

/-- Witness for C3 as amended, at a playlist-tagged response and at a
video-tagged response. -/
theorem classify_shape_enum_amended_witness :
    (get_url_info (EngineResp.ok (some ⟨some (str "playlist"), none, none, 3⟩))
        (str "u") = str "video" ∨
      get_url_info (EngineResp.ok (some ⟨some (str "playlist"), none, none, 3⟩))
        (str "u") = str "playlist" ∨
      get_url_info (EngineResp.ok (some ⟨some (str "playlist"), none, none, 3⟩))
        (str "u") = str "channel") ∧
    get_url_info (EngineResp.ok (some ⟨some (str "video"), none, none, 0⟩))
       (str "u") = str "video" :=
  ⟨(classify_shape_enum_amended
      (EngineResp.ok (some ⟨some (str "playlist"), none, none, 3⟩))
      (str "u")).1 (by decide),
    (classify_shape_enum_amended
      (EngineResp.ok (some ⟨some (str "video"), none, none, 0⟩))
      (str "u")).2 ⟨some (str "video"), none, none, 0⟩ (str "video")
      rfl rfl (by decide)⟩

/-- C5: the classification policy, spelled case by case: a video tag gives
video; a playlist tag gives playlist unless both an uploader id and a
profile marker are present, in which case channel; on an engine failure or
an empty result, profile markers give channel, else a non-blank list query
parameter gives playlist, else video. -/
theorem classify_policy (u : Str) (i : Info) :
    (i.ty = some (str "video") →
      get_url_info (EngineResp.ok (some i)) u = str "video") ∧
    (i.ty = some (str "playlist") →
      ¬(uploaderTruthy i = true ∧ profileMark u = true) →
      get_url_info (EngineResp.ok (some i)) u = str "playlist") ∧
    (i.ty = some (str "playlist") → uploaderTruthy i = true →
      profileMark u = true →
      get_url_info (EngineResp.ok (some i)) u = str "channel") ∧
    (∀ e, e = EngineResp.raised ∨ e = EngineResp.ok none →
      ((profileMark u = true → get_url_info e u = str "channel") ∧
       (profileMark u = false → hasQueryKey (str "list") u = true →
         get_url_info e u = str "playlist") ∧
       (profileMark u = false → hasQueryKey (str "list") u = false →
         get_url_info e u = str "video"))) := by
  refine ⟨?_, ?_, ?_, ?_⟩
  · intro hty
    simp [get_url_info, hty, (by decide : ¬(str "video" = str "playlist"))]
  · intro hty hnot
    have : ¬(uploaderTruthy i && profileMark u) = true := by
      simpa [Bool.and_eq_true] using hnot
    simp [get_url_info, hty, this]
  · intro hty hup hpm
    simp [get_url_info, hty, hup, hpm]
  · rintro e (rfl | rfl) <;>
      exact ⟨fun hpm => by simp [get_url_info, urlFallbackType, hpm],
        fun hpm hq => by simp [get_url_info, urlFallbackType, hpm, hq],
        fun hpm hq => by simp [get_url_info, urlFallbackType, hpm, hq]⟩

/-- Witness for C5 at a channel-shaped playlist response. -/
theorem classify_policy_witness :
    get_url_info
        (EngineResp.ok (some ⟨some (str "playlist"), some (str "UC1"), none, 3⟩))
        (str "https://www.youtube.com/@nasa") = str "channel" :=
  (classify_policy (str "https://www.youtube.com/@nasa")
      ⟨some (str "playlist"), some (str "UC1"), none, 3⟩).2.2.1
    rfl (by decide) (by decide)

/-- C6: a worker whose metadata resolution returns nothing fails fast with
a descriptive outcome and never reaches the download call, and a worker
whose metadata is a playlist with zero entries likewise fails without
downloading. -/
theorem fetch_fails_fast (url op : Str) (tid : Nat) (ao : Bool) (q : Str)
    (cE : EngineResp) :
    ((download_single_video url op tid ao q cE
        Session.extractNone).outcome.success = false ∧
     (download_single_video url op tid ao q cE
        Session.extractNone).downloaded = false ∧
     (download_single_video url op tid ao q cE
        Session.extractNone).outcome.message =
       threadTag tid ++
         str "Failed to extract video information. Video may be private or unavailable.") ∧
    (∀ (i : Info) (dl : Option Str), i.ty = some (str "playlist") →
      i.entries = 0 →
      (download_single_video url op tid ao q cE
          (Session.extractInfo i dl)).outcome.success = false ∧
      (download_single_video url op tid ao q cE
          (Session.extractInfo i dl)).downloaded = false) := by
  refine ⟨⟨rfl, rfl, rfl⟩, ?_⟩
  intro i dl hty hn
  simp [download_single_video, hty, hn]

/-- Witness for C6 at a concrete empty playlist. -/
theorem fetch_fails_fast_witness :
    (download_single_video (str "u") (str "/out") 1 false (str "best")
        EngineResp.raised
        (Session.extractInfo ⟨some (str "playlist"), none, none, 0⟩
          none)).downloaded = false :=
  ((fetch_fails_fast (str "u") (str "/out") 1 false (str "best")
      EngineResp.raised).2 ⟨some (str "playlist"), none, none, 0⟩ none
    rfl rfl).2

/-- Joining under a separator-free root inserts exactly one separator. -/
lemma pathJoin_sep (a b : Str) (h1 : a ≠ [])
    (h2 : a.getLast? ≠ some ('/'))
    (h3 : leadsWith (str "/") b = false) :
    pathJoin a b = a ++ str "/" ++ b := by
  unfold pathJoin
  rw [if_neg (by simp [h3]), if_neg h1, if_neg h2]

/-- C7: the output template handed to the engine is a pure function of the
classified shape: a playlist routes through a collection-title directory
with the declared index leading the file name, a channel routes through an
uploader directory with the date leading the file name, and a single video
goes directly under the root, each with the extension of the mode. -/
theorem output_template_by_shape (url op : Str) (tid : Nat) (ao : Bool)
    (q : Str) (cE : EngineResp) (sess : Session) (hne : op ≠ [])
    (hsl : op.getLast? ≠ some ('/')) :
    (get_url_info cE url = str "playlist" →
      (download_single_video url op tid ao q cE sess).outtmpl =
        op ++ str "/%(playlist_title)s/%(playlist_index)s-%(title)s." ++
          (if ao then str "mp3" else str "mp4")) ∧
    (get_url_info cE url = str "channel" →
      (download_single_video url op tid ao q cE sess).outtmpl =
        op ++ str "/%(uploader)s/%(upload_date)s-%(title)s." ++
          (if ao then str "mp3" else str "mp4")) ∧
    (get_url_info cE url = str "video" →
      (download_single_video url op tid ao q cE sess).outtmpl =
        op ++ str "/%(title)s." ++ (if ao then str "mp3" else str "mp4")) := by
  have hmid1 : (op ++ str "/" ++ str "%(playlist_title)s") ≠ [] := by
    intro hnil
    have := congrArg List.length hnil
    simp [str] at this
  have hmid2 : (op ++ str "/" ++ str "%(uploader)s") ≠ [] := by
    intro hnil
    have := congrArg List.length hnil
    simp [str] at this
  have hlast1 :
      (op ++ str "/" ++ str "%(playlist_title)s").getLast? ≠ some ('/') := by
    rw [List.append_assoc, List.getLast?_append,
      show (str "/" ++ str "%(playlist_title)s").getLast? = some ('s') from rfl]
    intro hcon
    simp [Option.or] at hcon
  have hlast2 :
      (op ++ str "/" ++ str "%(uploader)s").getLast? ≠ some ('/') := by
    rw [List.append_assoc, List.getLast?_append,
      show (str "/" ++ str "%(uploader)s").getLast? = some ('s') from rfl]
    intro hcon
    simp [Option.or] at hcon
  have hj1 : pathJoin op (str "%(playlist_title)s") =
      op ++ str "/" ++ str "%(playlist_title)s" :=
    pathJoin_sep _ _ hne hsl (by decide)
  have hj2 : pathJoin op (str "%(uploader)s") =
      op ++ str "/" ++ str "%(uploader)s" :=
    pathJoin_sep _ _ hne hsl (by decide)
  have houtt : ∀ (sess2 : Session),
      (download_single_video url op tid ao q cE sess2).outtmpl =
        (if get_url_info cE url = str "playlist" then
          pathJoin3 op (str "%(playlist_title)s")
            (str "%(playlist_index)s-%(title)s." ++
              (if ao then str "mp3" else str "mp4"))
        else if get_url_info cE url = str "channel" then
          pathJoin3 op (str "%(uploader)s")
            (str "%(upload_date)s-%(title)s." ++
              (if ao then str "mp3" else str "mp4"))
        else
          pathJoin op (str "%(title)s." ++
            (if ao then str "mp3" else str "mp4"))) := fun _ => rfl
  have hfa : ¬((false : Bool) = true) := by decide
  have hcp : ¬(str "channel" = str "playlist") := by decide
  have hvp : ¬(str "video" = str "playlist") := by decide
  have hvc : ¬(str "video" = str "channel") := by decide
  refine ⟨?_, ?_, ?_⟩ <;> intro h <;> rw [houtt sess, h] <;> cases ao
  · rw [if_pos rfl, if_neg hfa, pathJoin3, hj1,
      pathJoin_sep _ _ hmid1 hlast1 (by decide)]
    simp only [List.append_assoc]
    exact congrArg (fun z => op ++ z) (by decide)
  · rw [if_pos rfl, if_pos rfl, pathJoin3, hj1,
      pathJoin_sep _ _ hmid1 hlast1 (by decide)]
    simp only [List.append_assoc]
    exact congrArg (fun z => op ++ z) (by decide)
  · rw [if_neg hcp, if_pos rfl, if_neg hfa, pathJoin3, hj2,
      pathJoin_sep _ _ hmid2 hlast2 (by decide)]
    simp only [List.append_assoc]
    exact congrArg (fun z => op ++ z) (by decide)
  · rw [if_neg hcp, if_pos rfl, if_pos rfl, pathJoin3, hj2,
      pathJoin_sep _ _ hmid2 hlast2 (by decide)]
    simp only [List.append_assoc]
    exact congrArg (fun z => op ++ z) (by decide)
  · rw [if_neg hvp, if_neg hvc, if_neg hfa,
      pathJoin_sep _ _ hne hsl (by decide)]
    simp only [List.append_assoc]
    exact congrArg (fun z => op ++ z) (by decide)
  · rw [if_neg hvp, if_neg hvc, if_pos rfl,
      pathJoin_sep _ _ hne hsl (by decide)]
    simp only [List.append_assoc]
    exact congrArg (fun z => op ++ z) (by decide)

/-- Witness for C7 at a concrete root and playlist classification. -/
theorem output_template_by_shape_witness :
    (download_single_video (str "u") (str "/out") 1 false (str "best")
        (EngineResp.ok (some ⟨some (str "playlist"), none, none, 2⟩))
        Session.extractNone).outtmpl =
      str "/out" ++ str "/%(playlist_title)s/%(playlist_index)s-%(title)s." ++
        (if false then str "mp3" else str "mp4") :=
  (output_template_by_shape (str "u") (str "/out") 1 false (str "best")
      (EngineResp.ok (some ⟨some (str "playlist"), none, none, 2⟩))
      Session.extractNone (by decide) (by decide)).1 (by decide)

/-- The outcome at a position of the dispatch loop is computed from the
job at that position alone, with the thread id derived from the position. -/
lemma run_batch_from_getElem (op : Str) (ao : Bool) (q : Str) :
    ∀ (jobs : List Job) (i j : Nat),
      (run_batch_from op ao q i jobs)[j]? =
        (jobs[j]?).map (fun jb =>
          (download_single_video jb.url op (i + j + 1) ao q jb.classE
            jb.sess).outcome) := by
  intro jobs
  induction jobs with
  | nil => intro i j; simp [run_batch_from]
  | cons jb rest ih =>
    intro i j
    cases j with
    | zero => simp [run_batch_from]
    | succ j =>
      simp only [run_batch_from, List.getElem?_cons_succ]
      rw [ih (i + 1) j]
      have harith : i + 1 + j + 1 = i + (j + 1) + 1 := by omega
      rw [harith]

/-- C1: the fetch operation always returns an outcome for its own link;
whenever the session raises on the path the worker takes, the outcome is
a failure whose message carries the engine text; and the outcome at every
batch position is a function of that position's job alone, so one
worker's failure cannot affect another worker's outcome. -/
theorem fetch_error_containment (url op : Str) (tid : Nat) (ao : Bool)
    (q : Str) (cE : EngineResp) (sess : Session) (e : Str)
    (h : sessionRaisedMsg sess = some e) :
    ((download_single_video url op tid ao q cE sess).outcome.success = false ∧
     containsSub e
       (download_single_video url op tid ao q cE sess).outcome.message =
         true ∧
     (download_single_video url op tid ao q cE sess).outcome.url = url) ∧
    (∀ (jobs : List Job) (j : Nat),
      (run_batch op ao q jobs)[j]? =
        (jobs[j]?).map (fun jb =>
          (download_single_video jb.url op (j + 1) ao q jb.classE
            jb.sess).outcome)) := by
  constructor
  · cases sess with
    | extractRaise e0 =>
      have he : e0 = e := by simpa [sessionRaisedMsg] using h
      refine ⟨rfl, ?_, rfl⟩
      show containsSub e ((threadTag tid ++ str "Error: ") ++ e0) = true
      rw [he]
      exact containsSub_append_right _ _ _ (containsSub_self e)
    | extractNone => simp [sessionRaisedMsg] at h
    | extractInfo i dl =>
      by_cases hc : i.ty = some (str "playlist") ∧ i.entries = 0
      · rw [sessionRaisedMsg, if_pos hc] at h
        simp at h
      · rw [sessionRaisedMsg, if_neg hc] at h
        subst h
        have hred : (download_single_video url op tid ao q cE
            (Session.extractInfo i (some e))).outcome =
            ⟨url, false, threadTag tid ++ str "Error: " ++ e⟩ := by
          show (if i.ty = some (str "playlist") ∧ i.entries = 0 then _
            else _ : FetchOutcome × Bool).1 = _
          rw [if_neg hc]
        rw [hred]
        refine ⟨rfl, ?_, rfl⟩
        show containsSub e ((threadTag tid ++ str "Error: ") ++ e) = true
        exact containsSub_append_right _ _ _ (containsSub_self e)
  · intro jobs j
    have := run_batch_from_getElem op ao q jobs 0 j
    simpa [run_batch, Nat.zero_add] using this

/-- Witness for C1 at a session whose extraction raises. -/
theorem fetch_error_containment_witness :
    (download_single_video (str "u") (str "/out") 1 false (str "best")
        EngineResp.raised
        (Session.extractRaise (str "boom"))).outcome.success = false ∧
    containsSub (str "boom")
      (download_single_video (str "u") (str "/out") 1 false (str "best")
        EngineResp.raised
        (Session.extractRaise (str "boom"))).outcome.message = true :=
  ⟨(fetch_error_containment (str "u") (str "/out") 1 false (str "best")
      EngineResp.raised (Session.extractRaise (str "boom")) (str "boom")
      rfl).1.1,
    (fetch_error_containment (str "u") (str "/out") 1 false (str "best")
      EngineResp.raised (Session.extractRaise (str "boom")) (str "boom")
      rfl).1.2.1⟩

/-- The dispatch loop yields one outcome per dispatched link. -/
lemma run_batch_from_length (op : Str) (ao : Bool) (q : Str) :
    ∀ (i : Nat) (jobs : List Job),
      (run_batch_from op ao q i jobs).length = jobs.length := by
  intro i jobs
  induction jobs generalizing i with
  | nil => rfl
  | cons jb rest ih => simp [run_batch_from, ih]

/-- Filtering a list by a predicate and by its negation partitions it. -/
lemma length_filter_partition (p : FetchOutcome → Bool)
    (l : List FetchOutcome) :
    (l.filter p).length + (l.filter (fun r => !p r)).length = l.length := by
  induction l with
  | nil => rfl
  | cons r rest ih =>
    by_cases hr : p r = true
    · simp [List.filter_cons, hr, ih, Nat.add_assoc, Nat.add_comm,
        Nat.add_left_comm]
      omega
    · simp only [Bool.not_eq_true] at hr
      simp [List.filter_cons, hr, ih]
      omega

/-- C8: the batch report partitions the collected outcomes exactly: the
successful count is the number of successes, the failed count the number
of failures, their sum is the number of dispatched links, and the failure
list holds exactly the failed outcomes. The collected list may be any
completion-order permutation of the dispatched workers' outcomes. -/
theorem batch_report_partition (op : Str) (ao : Bool) (q : Str)
    (jobs : List Job) (results : List FetchOutcome)
    (hperm : results.Perm (run_batch op ao q jobs)) :
    (buildReport results).successful =
      results.countP (fun r => r.success) ∧
    (buildReport results).failed =
      results.countP (fun r => !r.success) ∧
    (buildReport results).successful + (buildReport results).failed =
      jobs.length ∧
    (∀ o, o ∈ (buildReport results).failures ↔
      o ∈ results ∧ o.success = false) := by
  refine ⟨?_, ?_, ?_, ?_⟩
  · simp [buildReport, List.countP_eq_length_filter]
  · simp [buildReport, List.countP_eq_length_filter]
  · have hlen : results.length = jobs.length := by
      rw [hperm.length_eq, run_batch, run_batch_from_length]
    rw [show (buildReport results).successful =
        (results.filter (fun r => r.success)).length from rfl,
      show (buildReport results).failed =
        (results.filter (fun r => !r.success)).length from rfl,
      length_filter_partition, hlen]
  · intro o
    show o ∈ results.filter (fun r => !r.success) ↔ _
    rw [List.mem_filter]
    simp

/-- Witness for C8 on the specification's own three-link example, with the
collected order differing from the submission order. -/
theorem batch_report_partition_witness :
    (buildReport ((run_batch (str "/out") false (str "best")
        [⟨str "a", EngineResp.raised,
            Session.extractInfo ⟨none, none, none, 0⟩ none⟩,
          ⟨str "b", EngineResp.raised,
            Session.extractRaise (str "boom")⟩,
          ⟨str "c", EngineResp.raised,
            Session.extractInfo ⟨none, none, none, 0⟩ none⟩]).reverse)).successful +
      (buildReport ((run_batch (str "/out") false (str "best")
        [⟨str "a", EngineResp.raised,
            Session.extractInfo ⟨none, none, none, 0⟩ none⟩,
          ⟨str "b", EngineResp.raised,
            Session.extractRaise (str "boom")⟩,
          ⟨str "c", EngineResp.raised,
            Session.extractInfo ⟨none, none, none, 0⟩ none⟩]).reverse)).failed
      = 3 :=
  ((batch_report_partition (str "/out") false (str "best")
      [⟨str "a", EngineResp.raised,
          Session.extractInfo ⟨none, none, none, 0⟩ none⟩,
        ⟨str "b", EngineResp.raised,
          Session.extractRaise (str "boom")⟩,
        ⟨str "c", EngineResp.raised,
          Session.extractInfo ⟨none, none, none, 0⟩ none⟩] _
      (List.reverse_perm _)).2.2.1).trans (by decide)

/-- A cache lookup misses exactly when the key is not among the cached
keys. -/
lemma lruLookup_eq_none_iff (c : List (Str × Str)) (k : Str) :
    lruLookup c k = none ↔ k ∉ lruKeys c := by
  induction c with
  | nil => simp [lruLookup, lruKeys]
  | cons e rest ih =>
    obtain ⟨k0, v0⟩ := e
    by_cases hk : k0 = k
    · simp [lruLookup, lruKeys, hk]
    · simp [lruLookup, lruKeys, hk, ih, Ne.symm hk]

/-- The key list of a cache extended in front. -/
lemma lruKeys_cons (k v : Str) (c : List (Str × Str)) :
    lruKeys ((k, v) :: c) = k :: lruKeys c := rfl

/-- Erasing a key from the cache erases it from the key list. -/
lemma lruKeys_erase (c : List (Str × Str)) (k : Str) :
    lruKeys (lruErase c k) = (lruKeys c).erase k := by
  induction c with
  | nil => rfl
  | cons e rest ih =>
    obtain ⟨k0, v0⟩ := e
    by_cases hk : k0 = k
    · simp only [lruErase, if_pos hk, lruKeys_cons, List.erase_cons]
      rw [if_pos (by simp [hk])]
    · simp only [lruErase, if_neg hk, lruKeys_cons, List.erase_cons]
      rw [if_neg (by simp [hk]), ih]

/-- Core memoization bound: running the cached classifier over a trace
whose distinct keys, together with the keys already cached, fit within
the capacity, consults the engine at most once per key, and not at all
for keys already cached. -/
lemma lruRun_calls (engine : Str → EngineResp) :
    ∀ (trace : List Str) (c : List (Str × Str)),
      (lruKeys c).Nodup →
      ((lruKeys c).toFinset ∪ trace.toFinset).card ≤ maxsize →
      ∀ k, engineCallCount (lruRun engine c trace) k ≤
        (if k ∈ lruKeys c then 0 else 1) := by
  intro trace
  induction trace with
  | nil =>
    intro c hnd hcard k
    simp only [lruRun, engineCallCount, List.countP_nil]
    split <;> omega
  | cons k1 ks ih =>
    intro c hnd hcard k
    cases hl : lruLookup c k1 with
    | some v =>
      have hk1mem : k1 ∈ lruKeys c := by
        by_contra hno
        rw [← lruLookup_eq_none_iff] at hno
        rw [hl] at hno
        exact Option.noConfusion hno
      have hkeys : lruKeys ((k1, v) :: lruErase c k1) =
          k1 :: (lruKeys c).erase k1 := by
        rw [lruKeys_cons, lruKeys_erase]
      have hmem_iff : ∀ x, x ∈ lruKeys ((k1, v) :: lruErase c k1) ↔
          x ∈ lruKeys c := by
        intro x
        rw [hkeys]
        simp only [List.mem_cons, hnd.mem_erase_iff]
        constructor
        · rintro (rfl | ⟨-, hx⟩)
          · exact hk1mem
          · exact hx
        · intro hx
          by_cases hxk : x = k1
          · exact Or.inl hxk
          · exact Or.inr ⟨hxk, hx⟩
      have hnd2 : (lruKeys ((k1, v) :: lruErase c k1)).Nodup := by
        rw [hkeys]
        refine List.nodup_cons.mpr ⟨?_, hnd.erase k1⟩
        rw [hnd.mem_erase_iff]
        rintro ⟨hne, -⟩
        exact hne rfl
      have hfin : (lruKeys ((k1, v) :: lruErase c k1)).toFinset =
          (lruKeys c).toFinset := by
        apply Finset.ext
        intro x
        simp only [List.mem_toFinset]
        exact hmem_iff x
      have hcard2 :
          ((lruKeys ((k1, v) :: lruErase c k1)).toFinset ∪
            ks.toFinset).card ≤ maxsize := by
        refine le_trans (Finset.card_le_card ?_) hcard
        rw [hfin]
        intro x hx
        rcases Finset.mem_union.mp hx with hx | hx
        · exact Finset.mem_union_left _ hx
        · refine Finset.mem_union_right _ ?_
          rw [List.toFinset_cons]
          exact Finset.mem_insert_of_mem hx
      have hstep : lruRun engine c (k1 :: ks) =
          (k1, false) :: lruRun engine ((k1, v) :: lruErase c k1) ks := by
        simp [lruRun, lruStep, hl]
      rw [hstep]
      simp only [engineCallCount, List.countP_cons, Bool.and_false,
        Nat.add_zero]
      have hrec := ih ((k1, v) :: lruErase c k1) hnd2 hcard2 k
      rw [engineCallCount] at hrec
      by_cases hkc : k ∈ lruKeys c
      · rw [if_pos hkc]
        rw [if_pos ((hmem_iff k).mpr hkc)] at hrec
        simpa using hrec
      · rw [if_neg hkc]
        rw [if_neg (fun hx => hkc ((hmem_iff k).mp hx))] at hrec
        simp only [if_neg (by simp : ¬(false = true))]
        omega
    | none =>
      have hk1no : k1 ∉ lruKeys c := (lruLookup_eq_none_iff c k1).mp hl
      have hk1fin : k1 ∉ (lruKeys c).toFinset := by
        rw [List.mem_toFinset]
        exact hk1no
      have hsub : insert k1 (lruKeys c).toFinset ⊆
          (lruKeys c).toFinset ∪ (k1 :: ks).toFinset := by
        intro x hx
        rcases Finset.mem_insert.mp hx with rfl | hx
        · refine Finset.mem_union_right _ ?_
          rw [List.toFinset_cons]
          exact Finset.mem_insert_self _ _
        · exact Finset.mem_union_left _ hx
      have hlen : (lruKeys c).length + 1 ≤ maxsize := by
        have h1 : (insert k1 (lruKeys c).toFinset).card =
            (lruKeys c).toFinset.card + 1 :=
          Finset.card_insert_of_not_mem hk1fin
        have h2 : (insert k1 (lruKeys c).toFinset).card ≤ maxsize :=
          le_trans (Finset.card_le_card hsub) hcard
        rw [List.toFinset_card_of_nodup hnd] at h1
        omega
      have htake :
          (((k1, get_url_info (engine k1) k1) :: c).take maxsize) =
            (k1, get_url_info (engine k1) k1) :: c := by
        apply List.take_of_length_le
        have : (lruKeys c).length = c.length := List.length_map _ _
        simp only [List.length_cons]
        omega
      have hstep : lruRun engine c (k1 :: ks) =
          (k1, true) :: lruRun engine
            ((k1, get_url_info (engine k1) k1) :: c) ks := by
        simp [lruRun, lruStep, hl, htake]
      have hkeys2 : lruKeys ((k1, get_url_info (engine k1) k1) :: c) =
          k1 :: lruKeys c := by
        simp [lruKeys]
      have hnd2 : (lruKeys ((k1, get_url_info (engine k1) k1) :: c)).Nodup := by
        rw [hkeys2]
        exact List.nodup_cons.mpr ⟨hk1no, hnd⟩
      have hcard2 :
          ((lruKeys ((k1, get_url_info (engine k1) k1) :: c)).toFinset ∪
            ks.toFinset).card ≤ maxsize := by
        refine le_trans (Finset.card_le_card ?_) hcard
        rw [hkeys2, List.toFinset_cons]
        intro x hx
        rcases Finset.mem_union.mp hx with hx | hx
        · rcases Finset.mem_insert.mp hx with rfl | hx
          · refine Finset.mem_union_right _ ?_
            rw [List.toFinset_cons]
            exact Finset.mem_insert_self _ _
          · exact Finset.mem_union_left _ hx
        · refine Finset.mem_union_right _ ?_
          rw [List.toFinset_cons]
          exact Finset.mem_insert_of_mem hx
      have hrec := ih ((k1, get_url_info (engine k1) k1) :: c) hnd2 hcard2 k
      rw [engineCallCount] at hrec
      rw [hstep]
      simp only [engineCallCount, List.countP_cons, Bool.and_true]
      by_cases hkk : k = k1
      · have hmemc2 : k ∈ lruKeys ((k1, get_url_info (engine k1) k1) :: c) := by
          rw [hkeys2, hkk]
          exact List.mem_cons_self _ _
        rw [if_pos hmemc2] at hrec
        rw [if_pos (by simp [hkk])]
        rw [if_neg (by rw [hkk]; exact hk1no)]
        omega
      · have hd : decide (k1 = k) = false := by
          simp only [decide_eq_false_iff_not]
          exact fun h => hkk h.symm
        rw [if_neg (by simp [hd])]
        have hmem_iff2 : k ∈ lruKeys ((k1, get_url_info (engine k1) k1) :: c) ↔
            k ∈ lruKeys c := by
          rw [hkeys2]
          simp [List.mem_cons, hkk]
        by_cases hkc : k ∈ lruKeys c
        · rw [if_pos hkc]
          rw [if_pos (hmem_iff2.mpr hkc)] at hrec
          omega
        · rw [if_neg hkc]
          rw [if_neg (fun hx => hkc (hmem_iff2.mp hx))] at hrec
          omega

/-- C4 as amended: within one process lifetime, each distinct link incurs
at most one external-engine call provided the number of distinct links
classified does not exceed the cache capacity of 128; beyond that bound
the least-recently-used entry is evicted and a link can be re-queried. -/
theorem classify_memoizes_within_capacity (engine : Str → EngineResp)
    (trace : List Str) (h : trace.toFinset.card ≤ maxsize) (k : Str) :
    engineCallCount (lruRun engine [] trace) k ≤ 1 := by
  have hmain := lruRun_calls engine trace [] (by simp [lruKeys])
    (by simpa [lruKeys] using h) k
  have : (if k ∈ lruKeys ([] : List (Str × Str)) then 0 else 1) ≤ 1 := by
    split <;> omega
  omega

/-- Witness for C4 as amended: a repeated link in a short trace hits the
engine only once. -/
theorem classify_memoizes_within_capacity_witness :
    engineCallCount
      (lruRun (fun _ => EngineResp.raised) []
        [str "https://youtu.be/a", str "https://youtu.be/b",
          str "https://youtu.be/a"])
      (str "https://youtu.be/a") ≤ 1 :=
  classify_memoizes_within_capacity (fun _ => EngineResp.raised)
    [str "https://youtu.be/a", str "https://youtu.be/b",
      str "https://youtu.be/a"] (by decide) (str "https://youtu.be/a")

set_option maxRecDepth 100000 in
/-- Counterexample to C4 as stated: after classifying 128 other distinct
links, re-classifying the first link consults the engine a second time,
because the bounded cache evicted it; so a distinct link does not incur
at most one engine call regardless of how many links come in between. -/
theorem classify_cache_eviction_cex :
    engineCallCount
      (lruRun (fun _ => EngineResp.raised) [] evictTrace) (ckey 0) = 2 := by
  decide

end Y2BeLike
